import Mathlib

set_option maxHeartbeats 1000000

/-!
# Verification of the client-side navigation engine of `scripts/AnimeNotifier.ts`

This file shallowly embeds the navigation / rendering engine of the
`AnimeNotifier` class (anime-release-notifier) and settles the claims about it.

Modelling conventions:
* The async method `diff(url)` (AnimeNotifier.ts lines 718-760) is modelled as a
  small-step system over `AppState`.  Each navigation is a process identified by
  a `Nat` id.  It has two atomic phases, matching the synchronous blocks of the
  TypeScript between its suspension points:
  - `diffStart`: everything before `await delay(150)` / `await request`
    (early return on `url === currentPath`, starting the fetch, pushing history,
    setting `currentPath`, clearing `diffCompletedForCurrentPath`,
    `loading(true)`);
  - `diffArrive`: the resumption once the response (or its failure) is
    available: the staleness checks, the `Diff.innerHTML` patch, and the
    `finally { loading(false) }`.
  The patch itself (`await Diff.innerHTML`) queues mutations that are flushed
  in FIFO order once per animation frame, so patch application order equals
  resumption order; we therefore model the check+patch+finally block as one
  atomic step.  DOM side effects that no claim mentions (`markActiveLinks`,
  `unmountMountables`, the 150 ms delay, the `DOMContentLoaded` emit) are not
  represented.
* Machine-independent data (paths, markup) are `String`s; the applied-patch log
  `applied` records each `Diff.innerHTML` call performed by `diff`, together
  with the value of `currentPath` at that moment.
-/

/-- A record of one patch applied by `diff` to the live content subtree
(`Diff.innerHTML(this.app.content, html)`): the navigation's url, the markup
that was applied, and the value of `this.app.currentPath` at the moment the
response was processed. -/
structure AppliedEntry where
  navUrl : String
  html : String
  pathAtApply : String
deriving DecidableEq, Repr

/-- The navigation-relevant fields of `AnimeNotifier` together with the browser
environment it mutates: `currentPath` and the history stack live on `app` /
`history`, `diffCompleted` is `diffCompletedForCurrentPath`, `content` is the
markup state of the live content subtree, `pending n = some url` means the
fetch started by navigation `n` (for `/_url`) has not resolved yet, and
`applied` logs every patch `diff` performed. -/
structure AppState where
  currentPath : String
  diffCompleted : Bool
  isLoading : Bool
  content : String
  history : List String
  pending : Nat → Option String
  applied : List AppliedEntry

/-- The first atomic phase of `diff(url)` (lines 718-737): the early return
when `url === this.app.currentPath`, otherwise starting the fetch,
`history.pushState`, `this.app.currentPath = url`,
`this.diffCompletedForCurrentPath = false` and `this.loading(true)`. -/
def diffStart (s : AppState) (id : Nat) (url : String) : AppState :=
  if url = s.currentPath then
    s
  else
    { s with
      history := url :: s.history
      currentPath := url
      diffCompleted := false
      isLoading := true
      pending := fun n => if n = id then some url else s.pending n }

/-- The second atomic phase of `diff(url)` (lines 742-759), resuming when the
fetch resolves (`outcome = some html`) or rejects (`outcome = none`):

```
let html = await request
if(!this.diffCompletedForCurrentPath) {
  if(this.app.currentPath === url) { this.diffCompletedForCurrentPath = true }
  await Diff.innerHTML(this.app.content, html)
  this.app.emit("DOMContentLoaded")
}
} catch(err) { console.error(err) } finally { this.loading(false) }
```

Note that the patch is guarded only by `!diffCompletedForCurrentPath`: a
response whose `url` no longer equals `currentPath` is still applied when the
current path's own response has not arrived yet. -/
def diffArrive (s : AppState) (id : Nat) (outcome : Option String) : AppState :=
  match s.pending id with
  | none => s
  | some url =>
    let cleared : Nat → Option String := fun n => if n = id then none else s.pending n
    match outcome with
    | none =>
      { s with pending := cleared, isLoading := false }
    | some html =>
      if s.diffCompleted then
        { s with pending := cleared, isLoading := false }
      else
        { s with
          pending := cleared
          diffCompleted := if s.currentPath = url then true else s.diffCompleted
          content := html
          applied := s.applied ++ [⟨url, html, s.currentPath⟩]
          isLoading := false }

/-- An event of the navigation system: a call to `diff` passing its guard
stage, or the resolution / rejection of a pending fetch. -/
inductive NavEvent where
  | start (id : Nat) (url : String)
  | arrive (id : Nat) (outcome : Option String)
deriving DecidableEq

/-- Whether an event is a `diff` invocation. -/
def NavEvent.isStart : NavEvent → Bool
  | .start _ _ => true
  | .arrive _ _ => false

/-- One step of the navigation system. -/
def navStep (s : AppState) : NavEvent → AppState
  | .start id url => diffStart s id url
  | .arrive id outcome => diffArrive s id outcome

/-- Run a sequence of navigation events. -/
def navRun (s : AppState) (es : List NavEvent) : AppState :=
  es.foldl navStep s

/-- An initial state: path `/`, nothing loading, no fetch in flight. -/
def navInit : AppState :=
  { currentPath := "/"
    diffCompleted := false
    isLoading := false
    content := "home"
    history := ["/"]
    pending := fun _ => none
    applied := [] }

/-- `diffArrive` never applies a patch, and never clears completion, once the
current path's response has been applied (`diffCompletedForCurrentPath` true). -/
lemma diffArrive_of_completed (s : AppState) (id : Nat) (o : Option String)
    (h : s.diffCompleted = true) :
    (diffArrive s id o).applied = s.applied ∧ (diffArrive s id o).diffCompleted = true := by
  unfold diffArrive
  cases hp : s.pending id with
  | none => exact ⟨rfl, h⟩
  | some url =>
    cases o with
    | none => exact ⟨rfl, h⟩
    | some html => simp [h]

/-- C1, counterexample. Starting from the initial state, navigate to
`/anime/1`, then to `/anime/2` while the first fetch is still in flight; the
first (now superseded) response arrives while the second navigation is still in
flight.  The code patches the superseded response into the container (the guard
at line 745 only checks `diffCompletedForCurrentPath`, not the path), and after
the second response arrives, two navigations' responses have been applied — the
first one at a moment when `currentPath` was `/anime/2` ≠ `/anime/1`.  This
refutes both "at most one navigation's response is ever applied" and "a
response for a superseded path arriving while a newer navigation is in flight
is never patched". -/
theorem c1_single_application_counterexample :
    ¬ ((navRun navInit
        [NavEvent.start 0 "/anime/1", NavEvent.start 1 "/anime/2",
         NavEvent.arrive 0 (some "h1"), NavEvent.arrive 1 (some "h2")]).applied.length ≤ 1) ∧
    (navRun navInit
        [NavEvent.start 0 "/anime/1", NavEvent.start 1 "/anime/2",
         NavEvent.arrive 0 (some "h1"), NavEvent.arrive 1 (some "h2")]).applied
      = [⟨"/anime/1", "h1", "/anime/2"⟩, ⟨"/anime/2", "h2", "/anime/2"⟩] := by
  constructor
  · decide
  · decide

/-- C1 (amended): a response is applied only while no response has yet been
applied for the current path (`diffCompletedForCurrentPath` false) — a stale
response arriving before the current path's own response may be applied as
provisional content — but once the current path's response has been applied,
every later-arriving response is discarded without being applied, until a new
navigation starts: any event sequence containing no `diff` invocation leaves
the applied-patch log unchanged from a completed state. -/
theorem c1_no_application_after_completion (s : AppState) (es : List NavEvent)
    (hc : s.diffCompleted = true)
    (hs : ∀ e ∈ es, e.isStart = false) :
    (navRun s es).applied = s.applied ∧ (navRun s es).diffCompleted = true := by
  induction es generalizing s with
  | nil => exact ⟨rfl, hc⟩
  | cons e rest ih =>
    cases e with
    | start id url =>
      have := hs (NavEvent.start id url) (by simp)
      simp [NavEvent.isStart] at this
    | arrive id o =>
      have harr := diffArrive_of_completed s id o hc
      have hrest : ∀ e ∈ rest, e.isStart = false := fun e he => hs e (by simp [he])
      have := ih (diffArrive s id o) harr.2 hrest
      simpa [navRun, navStep, harr.1] using this

theorem c1_no_application_after_completion_witness :
    (navRun { navInit with diffCompleted := true }
        [NavEvent.arrive 0 (some "h"), NavEvent.arrive 1 none]).applied = [] ∧
    (navRun { navInit with diffCompleted := true }
        [NavEvent.arrive 0 (some "h"), NavEvent.arrive 1 none]).diffCompleted = true := by
  have h := c1_no_application_after_completion { navInit with diffCompleted := true }
    [NavEvent.arrive 0 (some "h"), NavEvent.arrive 1 none] rfl (by decide)
  simpa [navInit] using h

/-- C2: if `diff(a)` is issued (from a state whose path differs from `a`), then
`diff(b)` is issued while the first fetch is still in flight (`b ≠ a`), and
`a`'s response arrives after `b`'s response, then after both navigations have
completed the content subtree holds `b`'s response, and `a`'s response was
never applied: the only patch performed is `b`'s. -/
theorem c2_later_navigation_wins (s : AppState) (idA idB : Nat) (a b ha hb : String)
    (hid : idA ≠ idB) (hA : a ≠ s.currentPath) (hB : b ≠ a) :
    (navRun s [NavEvent.start idA a, NavEvent.start idB b,
               NavEvent.arrive idB (some hb), NavEvent.arrive idA (some ha)]).content = hb ∧
    (navRun s [NavEvent.start idA a, NavEvent.start idB b,
               NavEvent.arrive idB (some hb), NavEvent.arrive idA (some ha)]).applied
      = s.applied ++ [⟨b, hb, b⟩] := by
  simp [navRun, navStep, diffStart, diffArrive, hA, hB, hid]

theorem c2_later_navigation_wins_witness :
    (navRun navInit [NavEvent.start 0 "/anime/1", NavEvent.start 1 "/anime/2",
        NavEvent.arrive 1 (some "h2"), NavEvent.arrive 0 (some "h1")]).content = "h2" ∧
    (navRun navInit [NavEvent.start 0 "/anime/1", NavEvent.start 1 "/anime/2",
        NavEvent.arrive 1 (some "h2"), NavEvent.arrive 0 (some "h1")]).applied
      = [⟨"/anime/2", "h2", "/anime/2"⟩] := by
  have h := c2_later_navigation_wins navInit 0 1 "/anime/1" "/anime/2" "h1" "h2"
    (by decide) (by decide) (by decide)
  simpa [navInit] using h

/-- C3: whenever a navigation started by `diff(url)` (with `url` different from
the then-current path, hence past the early return and with its fetch in
flight) completes — successful patch, discarded stale response, or fetch
failure alike — the `finally` block has run and `isLoading` is false. -/
theorem c3_loading_cleared_on_completion (s : AppState) (id : Nat) (url : String)
    (o : Option String) (h : s.pending id = some url) :
    (navStep s (NavEvent.arrive id o)).isLoading = false := by
  simp only [navStep]
  unfold diffArrive
  rw [h]
  cases o with
  | none => rfl
  | some html =>
    by_cases hc : s.diffCompleted <;> simp [hc]

theorem c3_loading_cleared_on_completion_witness :
    (navStep (navStep navInit (NavEvent.start 0 "/anime/1"))
      (NavEvent.arrive 0 (some "h1"))).isLoading = false := by
  exact c3_loading_cleared_on_completion _ 0 "/anime/1" (some "h1") (by decide)

/-- C10: `diff(url)` with `url ≠ currentPath` pushes the history entry and sets
`currentPath := url` (clearing `diffCompletedForCurrentPath`) already in its
first phase, before the fetch response is awaited; if the fetch then fails,
none of that is rolled back: afterwards `currentPath` is still the failed
navigation's target, `diffCompletedForCurrentPath` is still false, the content
and applied log are untouched, and only the loading flag has been restored to
false. -/
theorem c10_state_not_rolled_back_on_failure (s : AppState) (id : Nat) (url : String)
    (h : url ≠ s.currentPath) :
    (navStep s (NavEvent.start id url)).currentPath = url ∧
    (navStep s (NavEvent.start id url)).history = url :: s.history ∧
    (navStep s (NavEvent.start id url)).diffCompleted = false ∧
    (navStep s (NavEvent.start id url)).isLoading = true ∧
    (navStep (navStep s (NavEvent.start id url)) (NavEvent.arrive id none)).currentPath = url ∧
    (navStep (navStep s (NavEvent.start id url)) (NavEvent.arrive id none)).diffCompleted = false ∧
    (navStep (navStep s (NavEvent.start id url)) (NavEvent.arrive id none)).isLoading = false ∧
    (navStep (navStep s (NavEvent.start id url)) (NavEvent.arrive id none)).content = s.content ∧
    (navStep (navStep s (NavEvent.start id url)) (NavEvent.arrive id none)).applied = s.applied ∧
    (navStep (navStep s (NavEvent.start id url)) (NavEvent.arrive id none)).history = url :: s.history := by
  simp [navStep, diffStart, diffArrive, h]

theorem c10_state_not_rolled_back_on_failure_witness :
    (navStep (navStep navInit (NavEvent.start 0 "/anime/1"))
      (NavEvent.arrive 0 none)).currentPath = "/anime/1" ∧
    (navStep (navStep navInit (NavEvent.start 0 "/anime/1"))
      (NavEvent.arrive 0 none)).diffCompleted = false ∧
    (navStep (navStep navInit (NavEvent.start 0 "/anime/1"))
      (NavEvent.arrive 0 none)).isLoading = false := by
  have h := c10_state_not_rolled_back_on_failure navInit 0 "/anime/1" (by decide)
  exact ⟨h.2.2.2.2.1, h.2.2.2.2.2.1, h.2.2.2.2.2.2.1⟩

/-!
## `post(url, body)` (AnimeNotifier.ts lines 766-797)
-/

/-- An HTTP response as `post` consumes it: a status code and body text. -/
structure HttpResponse where
  status : Nat
  text : String
deriving DecidableEq, Repr

/-- What the promise returned by `post` settles to. -/
inductive PostOutcome where
  | resolvedNull
  | resolvedResponse (r : HttpResponse)
  | rejected (err : String)
deriving DecidableEq, Repr

/-- The observable behaviour of one `post` call: whether a network request was
issued, the body that was sent, the value of `isLoading` while the request was
outstanding, the value of `isLoading` after the promise settled, and the
outcome. -/
structure PostResult where
  requestIssued : Bool
  sentBody : Option String
  loadingDuring : Bool
  finalLoading : Bool
  outcome : PostOutcome
deriving DecidableEq, Repr

/-- `post(url, body)`: the body is either already a string (`Sum.inl`) or a
value serialized by `JSON.stringify` (modelled by the `stringify` argument).
`netResult` is the environment's answer to the fetch: `Except.error e` for a
network failure, `Except.ok r` for a response.

```
if(this.isLoading) { return Promise.resolve(null) }
if(typeof body !== "string") { body = JSON.stringify(body) }
this.loading(true)
return fetch(url, {method: "POST", body, credentials: "same-origin"})
.then(response => { this.loading(false)
  if(response.status === 200) { return Promise.resolve(response) }
  return response.text().then(err => { throw err }) })
.catch(err => { this.loading(false); throw err })
``` -/
def post {α : Type} (stringify : α → String) (isLoading : Bool)
    (body : String ⊕ α) (netResult : Except String HttpResponse) : PostResult :=
  if isLoading then
    { requestIssued := false
      sentBody := none
      loadingDuring := isLoading
      finalLoading := isLoading
      outcome := .resolvedNull }
  else
    let b := match body with
      | .inl s => s
      | .inr a => stringify a
    match netResult with
    | .error e =>
      { requestIssued := true, sentBody := some b, loadingDuring := true
        finalLoading := false, outcome := .rejected e }
    | .ok r =>
      if r.status = 200 then
        { requestIssued := true, sentBody := some b, loadingDuring := true
          finalLoading := false, outcome := .resolvedResponse r }
      else
        { requestIssued := true, sentBody := some b, loadingDuring := true
          finalLoading := false, outcome := .rejected r.text }

/-!
## `reloadContent(cached?)` (AnimeNotifier.ts lines 420-446)
-/

/-- A fetch request as `reloadContent` issues it. -/
structure FetchRequest where
  url : String
  headers : List (String × String)
  credentials : String
deriving DecidableEq, Repr

/-- The request built by `reloadContent(cached)`: a `Headers` object holding
`X-Reload: true` when `cached` is falsy (absent or `false`) and
`X-CacheOnly: true` otherwise, fetched from `"/_" + currentPath` with
same-origin credentials. -/
def reloadContentRequest (currentPath : String) (cached : Option Bool) : FetchRequest :=
  { url := "/_" ++ currentPath
    headers :=
      match cached with
      | some true => [("X-CacheOnly", "true")]
      | _ => [("X-Reload", "true")]
    credentials := "same-origin" }

/-- C4: `post(url, body)` called while `isLoading` is true resolves to null and
issues no network request (leaving the loading flag as it was); when
`isLoading` is false it serializes a non-string body with `JSON.stringify`
(sends a string body verbatim), keeps `isLoading` true for the call's
duration, clears it once the promise settles, resolves to the response when
the HTTP status is 200, and otherwise rejects with the response body text as
the error. -/
theorem c4_post_contract {α : Type} (stringify : α → String) (isLoading : Bool)
    (body : String ⊕ α) (netResult : Except String HttpResponse) :
    (isLoading = true →
      post stringify isLoading body netResult =
        { requestIssued := false, sentBody := none, loadingDuring := true
          finalLoading := true, outcome := .resolvedNull }) ∧
    (isLoading = false →
      (post stringify isLoading body netResult).requestIssued = true ∧
      (post stringify isLoading body netResult).loadingDuring = true ∧
      (post stringify isLoading body netResult).finalLoading = false ∧
      (∀ str, body = .inl str →
        (post stringify isLoading body netResult).sentBody = some str) ∧
      (∀ a, body = .inr a →
        (post stringify isLoading body netResult).sentBody = some (stringify a)) ∧
      (∀ r, netResult = .ok r → r.status = 200 →
        (post stringify isLoading body netResult).outcome = .resolvedResponse r) ∧
      (∀ r, netResult = .ok r → r.status ≠ 200 →
        (post stringify isLoading body netResult).outcome = .rejected r.text)) := by
  constructor
  · intro h
    subst h
    simp [post]
  · intro h
    subst h
    refine ⟨?_, ?_, ?_, ?_, ?_, ?_, ?_⟩
    · cases netResult with
      | error e => simp [post]
      | ok r => by_cases hs : r.status = 200 <;> simp [post, hs]
    · cases netResult with
      | error e => simp [post]
      | ok r => by_cases hs : r.status = 200 <;> simp [post, hs]
    · cases netResult with
      | error e => simp [post]
      | ok r => by_cases hs : r.status = 200 <;> simp [post, hs]
    · intro str hb
      subst hb
      cases netResult with
      | error e => simp [post]
      | ok r => by_cases hs : r.status = 200 <;> simp [post, hs]
    · intro a hb
      subst hb
      cases netResult with
      | error e => simp [post]
      | ok r => by_cases hs : r.status = 200 <;> simp [post, hs]
    · intro r hn hs
      subst hn
      simp [post, hs]
    · intro r hn hs
      subst hn
      simp [post, hs]

theorem c4_post_contract_witness :
    post (fun _ : Unit => "{}") true (Sum.inl "b") (Except.ok ⟨200, "ok"⟩) =
      { requestIssued := false, sentBody := none, loadingDuring := true
        finalLoading := true, outcome := .resolvedNull } ∧
    (post (fun _ : Unit => "{}") false (Sum.inr ()) (Except.ok ⟨200, "ok"⟩)).sentBody
      = some "{}" ∧
    (post (fun _ : Unit => "{}") false (Sum.inr ()) (Except.ok ⟨200, "ok"⟩)).outcome
      = .resolvedResponse ⟨200, "ok"⟩ ∧
    (post (fun _ : Unit => "{}") false (Sum.inl "b") (Except.ok ⟨404, "missing"⟩)).outcome
      = .rejected "missing" := by
  refine ⟨?_, ?_, ?_, ?_⟩
  · exact (c4_post_contract (fun _ : Unit => "{}") true (Sum.inl "b")
      (Except.ok ⟨200, "ok"⟩)).1 rfl
  · exact ((c4_post_contract (fun _ : Unit => "{}") false (Sum.inr ())
      (Except.ok ⟨200, "ok"⟩)).2 rfl).2.2.2.2.1 () rfl
  · exact ((c4_post_contract (fun _ : Unit => "{}") false (Sum.inr ())
      (Except.ok ⟨200, "ok"⟩)).2 rfl).2.2.2.2.2.1 ⟨200, "ok"⟩ rfl rfl
  · exact ((c4_post_contract (fun _ : Unit => "{}") false (Sum.inl "b")
      (Except.ok ⟨404, "missing"⟩)).2 rfl).2.2.2.2.2.2 ⟨404, "missing"⟩ rfl (by decide)

/-- C9: `reloadContent(false)` issues its content-fragment fetch (for
`"/_" + currentPath`, same-origin credentials) with the request header
`X-Reload: true`, `reloadContent(true)` with `X-CacheOnly: true`, and for
every value of the `cached` flag (including omitting it) exactly one of the
two headers is set. -/
theorem c9_reload_content_headers (p : String) (cached : Option Bool) :
    (reloadContentRequest p (some false)).headers = [("X-Reload", "true")] ∧
    (reloadContentRequest p (some true)).headers = [("X-CacheOnly", "true")] ∧
    (reloadContentRequest p none).headers = [("X-Reload", "true")] ∧
    (reloadContentRequest p cached).url = "/_" ++ p ∧
    (reloadContentRequest p cached).credentials = "same-origin" ∧
    ((("X-Reload", "true") ∈ (reloadContentRequest p cached).headers) ↔
      ¬ (("X-CacheOnly", "true") ∈ (reloadContentRequest p cached).headers)) := by
  refine ⟨rfl, rfl, rfl, rfl, rfl, ?_⟩
  match cached with
  | some true => simp [reloadContentRequest]
  | some false => simp [reloadContentRequest]
  | none => simp [reloadContentRequest]

/-!
## Persistence sets and the Tree Patcher

The persistence sets are configured in the `AnimeNotifier` constructor
(lines 45-51); the patcher itself lives in `scripts/Diff.ts`, which is not
among the sources, so its behaviour is modelled from the spec.
-/

/-- The classes added to `Diff.persistentClasses` in the `AnimeNotifier`
constructor: "These classes will never be removed on DOM diffs". -/
def persistentClasses : List String := ["mounted", "element-found", "active"]

/-- The attributes added to `Diff.persistentAttributes` in the constructor:
"Never remove src property on diffs". -/
def persistentAttributes : List String := ["src"]

/-- A live DOM node, abstracted to the data the persistence rules concern:
its class set and its attribute map. -/
structure DomNode where
  classes : String → Bool
  attrs : String → Option String

/-- Modelled from the spec: the Tree Patcher's per-node update
(`Diff.innerHTML` in `scripts/Diff.ts`, not among the sources; only its
configuration in the `AnimeNotifier` constructor is).  Per spec §4.1, matching
nodes are updated in place, "except that any class in the persistent-class set
already present on a live node is retained even if absent from the target, and
any attribute in the persistent-attribute set is never overwritten to
empty/absent".  `live` is the node in the document, `target` the corresponding
node of the freshly parsed markup; the result is the node after the patch. -/
def patchNode (live target : DomNode) : DomNode :=
  { classes := fun c =>
      target.classes c || (decide (c ∈ persistentClasses) && live.classes c)
    attrs := fun n =>
      if n ∈ persistentAttributes then
        match target.attrs n, live.attrs n with
        | some v, some w => some (if v = "" then (if w = "" then v else w) else v)
        | some v, none => some v
        | none, some w => some w
        | none, none => none
      else target.attrs n }

/-- C5: for every patch and every live node, a class of the persistent-class
set — configured at startup as `mounted`, `element-found`, `active` — that is
present before the patch is still present after it, and an attribute of the
persistent-attribute set — configured as `src` — that has a non-empty value
before the patch still has a non-empty value after it, even when the class or
attribute is absent from (or empty in) the target markup. -/
theorem c5_persistent_classes_attributes_kept (live target : DomNode)
    (c : String) (hc : c ∈ persistentClasses) (hlive : live.classes c = true)
    (n : String) (v : String) (hn : n ∈ persistentAttributes)
    (hv : live.attrs n = some v) (hne : v ≠ "") :
    persistentClasses = ["mounted", "element-found", "active"] ∧
    persistentAttributes = ["src"] ∧
    (patchNode live target).classes c = true ∧
    ∃ w, (patchNode live target).attrs n = some w ∧ w ≠ "" := by
  refine ⟨rfl, rfl, ?_, ?_⟩
  · simp [patchNode, hlive, hc]
  · simp only [patchNode, if_pos hn]
    cases ht : target.attrs n with
    | none => exact ⟨v, by simp [hv], hne⟩
    | some tv =>
      by_cases htv : tv = ""
      · exact ⟨v, by simp [hv, htv, hne], hne⟩
      · exact ⟨tv, by simp [hv, htv], htv⟩

theorem c5_persistent_classes_attributes_kept_witness :
    (patchNode
      ⟨fun c => c = "mounted", fun n => if n = "src" then some "/img/a.png" else none⟩
      ⟨fun _ => false, fun _ => none⟩).classes "mounted" = true ∧
    (∃ w, (patchNode
      ⟨fun c => c = "mounted", fun n => if n = "src" then some "/img/a.png" else none⟩
      ⟨fun _ => false, fun _ => none⟩).attrs "src" = some w ∧ w ≠ "") := by
  have h := c5_persistent_classes_attributes_kept
    ⟨fun c => c = "mounted", fun n => if n = "src" then some "/img/a.png" else none⟩
    ⟨fun _ => false, fun _ => none⟩
    "mounted" (by decide) (by simp)
    "src" "/img/a.png" (by decide) (by simp) (by decide)
  exact ⟨h.2.2.1, h.2.2.2⟩

/-!
## `modifyDelayed` (AnimeNotifier.ts lines 652-716)

Only the schedule-building loop (lines 656-690) decides the claim: it assigns
each not-yet-mounted element, grouped by `dataset.mountableType || "general"`,
a reveal time, and the per-category animation-frame loops then reveal the
elements at those times in list order.
-/

/-- An element as `modifyDelayed` inspects it: whether it already carries the
`mounted` class, and its `dataset.mountableType` (`""` when absent). -/
structure MountElem where
  mounted : Bool
  mountableType : String
deriving DecidableEq, Repr

/-- `element.dataset.mountableType || "general"` (an absent or empty value is
falsy in JavaScript). -/
def mountType (e : MountElem) : String :=
  if e.mountableType = "" then "general" else e.mountableType

/-- `const maxDelay = 1000`. -/
def maxDelay : Nat := 1000

/-- `const delay = 18`. -/
def delay : Nat := 18

/-- Lookup in an association list (a JS `Map.get`). -/
def lookupA {β : Type} (k : String) : List (String × β) → Option β
  | [] => none
  | (k', v) :: rest => if k' = k then some v else lookupA k rest

/-- Update / insert in an association list (a JS `Map.set`). -/
def setA {β : Type} (k : String) (v : β) : List (String × β) → List (String × β)
  | [] => [(k, v)]
  | (k', v') :: rest => if k' = k then (k, v) :: rest else (k', v') :: setA k v rest

/-- The two maps built by the loop: `mountableTypes` (last scheduled time per
category, stored unclamped) and `mountableTypeMutations` (the `{element, time}`
records pushed per category, in encounter order, with the clamped time). -/
structure MDState where
  mountableTypes : List (String × Nat)
  mountableTypeMutations : List (String × List (MountElem × Nat))
deriving DecidableEq, Repr

/-- One iteration of the schedule-building loop (lines 663-690):

```
if(element.classList.contains("mounted")) { continue }
let type = element.dataset.mountableType || "general"
if(mountableTypes.has(type)) {
  time = mountableTypes.get(type) + delay
  mountableTypes.set(type, time)
} else {
  time = start
  mountableTypes.set(type, time)
  mountableTypeMutations.set(type, [])
}
if(time > maxTime) { time = maxTime }
mountableTypeMutations.get(type).push({element, time})
```

Note the clamped `time` is only pushed; the value stored in `mountableTypes`
keeps growing unclamped. -/
def mdStep (start maxTime : Nat) (st : MDState) (element : MountElem) : MDState :=
  if element.mounted then st
  else
    match lookupA (mountType element) st.mountableTypes with
    | some prev =>
      { mountableTypes := setA (mountType element) (prev + delay) st.mountableTypes
        mountableTypeMutations :=
          setA (mountType element)
            (((lookupA (mountType element) st.mountableTypeMutations).getD [])
              ++ [(element, if prev + delay > maxTime then maxTime else prev + delay)])
            st.mountableTypeMutations }
    | none =>
      { mountableTypes := setA (mountType element) start st.mountableTypes
        mountableTypeMutations :=
          setA (mountType element)
            ([] ++ [(element, if start > maxTime then maxTime else start)])
            (setA (mountType element) [] st.mountableTypeMutations) }

/-- The whole schedule-building loop: `start = Date.now()`,
`maxTime = start + maxDelay`, both maps initially empty. -/
def modifyDelayed (start : Nat) (elements : List MountElem) : MDState :=
  elements.foldl (mdStep start (start + maxDelay)) ⟨[], []⟩

/-- The reveal times the k-th element of a category receives:
`min (start + 18k) (start + 1000)`, k = 0, 1, ... -/
def expectedTimes (start n : Nat) : List Nat :=
  (List.range n).map (fun k => min (start + delay * k) (start + maxDelay))

lemma lookupA_setA_self {β : Type} (k : String) (v : β) (m : List (String × β)) :
    lookupA k (setA k v m) = some v := by
  induction m with
  | nil => simp [lookupA, setA]
  | cons p rest ih =>
    obtain ⟨k0, v0⟩ := p
    by_cases h : k0 = k
    · subst h
      simp [setA, lookupA]
    · simp only [setA, if_neg h, lookupA]
      exact ih

lemma lookupA_setA_ne {β : Type} {k k' : String} (h : k' ≠ k) (v : β)
    (m : List (String × β)) : lookupA k' (setA k v m) = lookupA k' m := by
  induction m with
  | nil =>
    simp only [setA, lookupA]
    rw [if_neg (fun hh => h hh.symm)]
  | cons p rest ih =>
    obtain ⟨k0, v0⟩ := p
    by_cases h0 : k0 = k
    · subst h0
      simp only [setA, if_pos rfl, lookupA]
      rw [if_neg (fun hh => h hh.symm), if_neg (fun hh => h hh.symm)]
    · simp only [setA, if_neg h0, lookupA]
      by_cases h1 : k0 = k'
      · rw [if_pos h1, if_pos h1]
      · rw [if_neg h1, if_neg h1]
        exact ih

lemma clamp_eq_min (a m : Nat) : (if a > m then m else a) = min a m := by
  rcases Nat.lt_or_ge m a with h | h
  · simp [h, Nat.min_eq_right (Nat.le_of_lt h)]
  · simp [Nat.not_lt.mpr h, Nat.min_eq_left h]

lemma expectedTimes_succ (start n : Nat) :
    expectedTimes start (n + 1)
      = expectedTimes start n ++ [min (start + delay * n) (start + maxDelay)] := by
  simp [expectedTimes, List.range_succ]

lemma mdStep_mounted (start maxTime : Nat) (st : MDState) (e : MountElem)
    (hm : e.mounted = true) : mdStep start maxTime st e = st := by
  simp [mdStep, hm]

lemma mdStep_known (start maxTime : Nat) (st : MDState) (e : MountElem) (prev : Nat)
    (hm : e.mounted = false)
    (hty : lookupA (mountType e) st.mountableTypes = some prev) :
    mdStep start maxTime st e =
      { mountableTypes := setA (mountType e) (prev + delay) st.mountableTypes
        mountableTypeMutations :=
          setA (mountType e)
            (((lookupA (mountType e) st.mountableTypeMutations).getD [])
              ++ [(e, if prev + delay > maxTime then maxTime else prev + delay)])
            st.mountableTypeMutations } := by
  simp [mdStep, hm, hty]

lemma mdStep_new (start maxTime : Nat) (st : MDState) (e : MountElem)
    (hm : e.mounted = false)
    (hty : lookupA (mountType e) st.mountableTypes = none) :
    mdStep start maxTime st e =
      { mountableTypes := setA (mountType e) start st.mountableTypes
        mountableTypeMutations :=
          setA (mountType e)
            ([] ++ [(e, if start > maxTime then maxTime else start)])
            (setA (mountType e) [] st.mountableTypeMutations) } := by
  simp [mdStep, hm, hty]

/-- The invariant of the schedule-building loop: `mountableTypes` stores, per
category, `start + 18·(count−1)` where `count` is the number of records pushed
for the category, the pushed times follow `expectedTimes`, and every pushed
element is unmounted and belongs to the category. -/
def MDInv (start : Nat) (st : MDState) : Prop :=
  (∀ t : String,
     lookupA t st.mountableTypes
       = (lookupA t st.mountableTypeMutations).map
           (fun l => start + delay * (l.length - 1))) ∧
  (∀ t : String, ∀ l, lookupA t st.mountableTypeMutations = some l →
     l ≠ [] ∧ l.map Prod.snd = expectedTimes start l.length ∧
     (∀ p ∈ l, p.1.mounted = false ∧ mountType p.1 = t))

lemma mdStep_inv (start : Nat) (st : MDState) (e : MountElem)
    (h : MDInv start st) : MDInv start (mdStep start (start + maxDelay) st e) := by
  cases hm : e.mounted with
  | true =>
    rw [mdStep_mounted _ _ _ _ hm]
    exact h
  | false =>
    cases hty : lookupA (mountType e) st.mountableTypes with
    | some prev =>
      have hmap := h.1 (mountType e)
      rw [hty] at hmap
      cases hml : lookupA (mountType e) st.mountableTypeMutations with
      | none =>
        rw [hml] at hmap
        simp at hmap
      | some l =>
        rw [hml] at hmap
        simp only [Option.map_some'] at hmap
        have hprev : prev = start + delay * (l.length - 1) := Option.some.inj hmap
        obtain ⟨hne, htimes, hprops⟩ := h.2 (mountType e) l hml
        have hlen : l.length - 1 + 1 = l.length :=
          Nat.succ_pred_eq_of_pos (List.length_pos.mpr hne)
        have hstep : prev + delay = start + delay * l.length := by
          rw [hprev]
          simp only [delay]
          omega
        rw [mdStep_known _ _ _ _ prev hm hty]
        constructor
        · intro t
          by_cases ht : t = mountType e
          · subst ht
            simp only
            rw [lookupA_setA_self, lookupA_setA_self, hml]
            simp [hstep, hne]
          · simp only
            rw [lookupA_setA_ne ht, lookupA_setA_ne ht]
            exact h.1 t
        · intro t l' hl'
          by_cases ht : t = mountType e
          · subst ht
            simp only at hl'
            rw [lookupA_setA_self, hml] at hl'
            simp only [Option.getD_some] at hl'
            have hl'eq : l' = l ++ [(e, min (prev + delay) (start + maxDelay))] := by
              have hinj := Option.some.inj hl'
              rw [← hinj, clamp_eq_min]
            subst hl'eq
            refine ⟨by simp, ?_, ?_⟩
            · rw [List.map_append, htimes, List.length_append]
              simp only [List.map_cons, List.map_nil, List.length_cons, List.length_nil,
                Nat.zero_add]
              rw [expectedTimes_succ, hstep]
            · intro p hp
              rcases List.mem_append.mp hp with hp | hp
              · exact hprops p hp
              · simp only [List.mem_singleton] at hp
                subst hp
                exact ⟨hm, rfl⟩
          · simp only at hl'
            rw [lookupA_setA_ne ht] at hl'
            exact h.2 t l' hl'
    | none =>
      have hmap := h.1 (mountType e)
      rw [hty] at hmap
      have hml : lookupA (mountType e) st.mountableTypeMutations = none := by
        cases hx : lookupA (mountType e) st.mountableTypeMutations with
        | none => rfl
        | some l =>
          rw [hx] at hmap
          simp at hmap
      rw [mdStep_new _ _ _ _ hm hty]
      constructor
      · intro t
        by_cases ht : t = mountType e
        · subst ht
          simp only
          rw [lookupA_setA_self, lookupA_setA_self]
          simp
        · simp only
          rw [lookupA_setA_ne ht, lookupA_setA_ne ht, lookupA_setA_ne ht]
          exact h.1 t
      · intro t l' hl'
        by_cases ht : t = mountType e
        · subst ht
          simp only at hl'
          rw [lookupA_setA_self] at hl'
          have hl'eq : l' = [(e, min start (start + maxDelay))] := by
            have hinj := Option.some.inj hl'
            rw [← hinj, clamp_eq_min]
            simp
          subst hl'eq
          refine ⟨by simp, ?_, ?_⟩
          · simp [expectedTimes, List.range_succ]
          · intro p hp
            simp only [List.mem_singleton] at hp
            subst hp
            exact ⟨hm, rfl⟩
        · simp only at hl'
          rw [lookupA_setA_ne ht, lookupA_setA_ne ht] at hl'
          exact h.2 t l' hl'

lemma md_foldl_inv (start : Nat) (elements : List MountElem) :
    ∀ st0, MDInv start st0 →
      MDInv start (elements.foldl (mdStep start (start + maxDelay)) st0) := by
  induction elements with
  | nil =>
    intro st0 h
    simpa using h
  | cons e rest ih =>
    intro st0 h
    simp only [List.foldl_cons]
    exact ih _ (mdStep_inv start st0 e h)

lemma modifyDelayed_inv (start : Nat) (elements : List MountElem) :
    MDInv start (modifyDelayed start elements) := by
  apply md_foldl_inv
  constructor
  · intro t
    simp [lookupA]
  · intro t l hl
    simp [lookupA] at hl

/-- C6: in a batch handed to `modifyDelayed`, elements already carrying the
`mounted` class are skipped (no schedule record is created for them), the
remaining elements are grouped by their declared category
(`dataset.mountableType || "general"`), and within each category the k-th
scheduled element's reveal time is `min (start + 18·k) (start + 1000)` — i.e.
the previous element's reveal time plus 18 ms starting from the batch start,
clamped at start + 1000 ms; consequently the reveal times are non-decreasing
in k and never exceed start + 1000. -/
theorem c6_stagger_schedule (start : Nat) (elements : List MountElem) (t : String)
    (l : List (MountElem × Nat))
    (hl : lookupA t (modifyDelayed start elements).mountableTypeMutations = some l)
    (k : Nat) (hk : k < l.length) :
    (l.map Prod.snd)[k]? = some (min (start + 18 * k) (start + 1000)) ∧
    (∀ time ∈ (l.map Prod.snd)[k]?, time ≤ start + 1000) ∧
    (∀ j, k ≤ j → ∀ a ∈ (l.map Prod.snd)[k]?, ∀ b ∈ (l.map Prod.snd)[j]?, a ≤ b) ∧
    (∀ p ∈ l, p.1.mounted = false ∧ mountType p.1 = t) := by
  obtain ⟨hne, htimes, hprops⟩ := (modifyDelayed_inv start elements).2 t l hl
  have hget : ∀ i, i < l.length →
      (l.map Prod.snd)[i]? = some (min (start + 18 * i) (start + 1000)) := by
    intro i hi
    rw [htimes]
    unfold expectedTimes
    rw [List.getElem?_map, List.getElem?_range hi]
    rfl
  refine ⟨hget k hk, ?_, ?_, hprops⟩
  · intro time ht
    rw [hget k hk] at ht
    simp only [Option.mem_def, Option.some.injEq] at ht
    subst ht
    exact Nat.min_le_right _ _
  · intro j hkj a ha b hb
    by_cases hj : j < l.length
    · rw [hget k hk] at ha
      rw [hget j hj] at hb
      simp only [Option.mem_def, Option.some.injEq] at ha hb
      subst ha
      subst hb
      exact min_le_min (Nat.add_le_add_left (Nat.mul_le_mul_left 18 hkj) start) le_rfl
    · rw [List.getElem?_eq_none (by simpa using Nat.le_of_not_lt hj)] at hb
      simp at hb

theorem c6_stagger_schedule_witness :
    (([(⟨false, ""⟩, 0), (⟨false, ""⟩, 18)] : List (MountElem × Nat)).map Prod.snd)[1]?
      = some (min (0 + 18 * 1) (0 + 1000)) ∧
    (∀ p ∈ ([(⟨false, ""⟩, 0), (⟨false, ""⟩, 18)] : List (MountElem × Nat)),
      p.1.mounted = false ∧ mountType p.1 = "general") := by
  have h := c6_stagger_schedule 0 [⟨false, ""⟩, ⟨false, ""⟩, ⟨true, "x"⟩] "general"
    [(⟨false, ""⟩, 0), (⟨false, ""⟩, 18)] (by decide) 1 (by decide)
  exact ⟨h.1, h.2.2.2⟩

/-!
## The visibility observer (AnimeNotifier.ts lines 53-76)

Elements are identified by `Nat` ids; `fired n` counts how many times element
`n`'s `"became visible"` callback has been invoked.  With
`IntersectionObserver` support the constructor installs a callback that, for
every delivered entry with `isIntersecting`, invokes the target's callback and
then unobserves the target.  The environment (the browser) delivers entries
only for observed targets; we additionally assume each delivered batch holds
at most one intersecting entry per target (`ValidDeliver`).  Without support,
`observe` invokes the callback immediately on every call (eager fallback).
-/

/-- Observer state: the set of observed element ids and, per element, how many
times its `"became visible"` callback has run. -/
structure ObsState where
  observed : List Nat
  fired : Nat → Nat

/-- An `IntersectionObserverEntry`, reduced to what the callback reads. -/
structure IEntry where
  target : Nat
  isIntersecting : Bool
deriving DecidableEq, Repr

/-- The `IntersectionObserver` callback installed in the constructor:

```
entries => {
  for(let entry of entries) {
    if(entry.isIntersecting) {
      entry.target["became visible"]()
      this.visibilityObserver.unobserve(entry.target)
    }
  }
}
``` -/
def visibilityCallback (entries : List IEntry) (s : ObsState) : ObsState :=
  entries.foldl
    (fun st e =>
      if e.isIntersecting then
        { st with
          fired := fun n => if n = e.target then st.fired n + 1 else st.fired n
          observed := st.observed.filter (fun n => n ≠ e.target) }
      else st)
    s

/-- An event in intersection mode: a call to
`visibilityObserver.observe(elem)` (re-observing an already-observed target is
a no-op per the `IntersectionObserver` contract), or the browser delivering a
batch of entries to the callback. -/
inductive ObsEvent where
  | observe (target : Nat)
  | deliver (entries : List IEntry)
deriving DecidableEq

/-- One step in intersection mode. -/
def obsStep (s : ObsState) : ObsEvent → ObsState
  | .observe t =>
    { s with observed := if t ∈ s.observed then s.observed else t :: s.observed }
  | .deliver entries => visibilityCallback entries s

/-- Run a sequence of observer events. -/
def runObs (s : ObsState) : List ObsEvent → ObsState
  | [] => s
  | e :: rest => runObs (obsStep s e) rest

/-- The number of intersecting entries for target `x` in a batch. -/
def hitCount (x : Nat) : List IEntry → Nat
  | [] => 0
  | e :: rest => (if e.isIntersecting = true ∧ e.target = x then 1 else 0) + hitCount x rest

/-- What the browser guarantees about a delivered batch: entries are only
delivered for targets that are observed when the callback is dispatched, and a
batch holds at most one intersecting entry per target. -/
def ValidDeliver (s : ObsState) (entries : List IEntry) : Prop :=
  (∀ e ∈ entries, e.target ∈ s.observed) ∧ (∀ y, hitCount y entries ≤ 1)

/-- A trace whose every delivery satisfies `ValidDeliver` at its point of
dispatch. -/
def ValidTrace (s : ObsState) : List ObsEvent → Prop
  | [] => True
  | e :: rest =>
    (match e with
     | ObsEvent.observe _ => True
     | ObsEvent.deliver entries => ValidDeliver s entries) ∧
    ValidTrace (obsStep s e) rest

/-- The eager fallback installed when `IntersectionObserver` is unsupported:
`observe: (elem) => { elem["became visible"]() }` — every `observe` call
invokes the callback immediately (`unobserve` and `disconnect` are no-ops). -/
def fallbackObserve (s : ObsState) (t : Nat) : ObsState :=
  { s with fired := fun n => if n = t then s.fired n + 1 else s.fired n }

/-- A sequence of `observe` calls in fallback mode. -/
def runFallback (s : ObsState) (ts : List Nat) : ObsState :=
  ts.foldl fallbackObserve s

/-- Fresh observer state: nothing observed, nothing fired. -/
def obsInit : ObsState := ⟨[], fun _ => 0⟩

lemma visibilityCallback_cons (e : IEntry) (rest : List IEntry) (s : ObsState) :
    visibilityCallback (e :: rest) s =
      visibilityCallback rest
        (if e.isIntersecting then
          { s with
            fired := fun n => if n = e.target then s.fired n + 1 else s.fired n
            observed := s.observed.filter (fun n => n ≠ e.target) }
        else s) := rfl

lemma fired_visibilityCallback (x : Nat) :
    ∀ (entries : List IEntry) (s : ObsState),
      (visibilityCallback entries s).fired x = s.fired x + hitCount x entries := by
  intro entries
  induction entries with
  | nil =>
    intro s
    simp [visibilityCallback, hitCount]
  | cons e rest ih =>
    intro s
    rw [visibilityCallback_cons]
    by_cases hi : e.isIntersecting = true
    · rw [if_pos hi, ih]
      simp only [hitCount, hi, true_and]
      by_cases ht : e.target = x
      · subst ht
        simp only [eq_self_iff_true, if_true]
        omega
      · have hxt : ¬ x = e.target := fun hh => ht hh.symm
        simp only [if_neg hxt, if_neg ht]
        omega
    · rw [if_neg hi, ih]
      simp only [hitCount]
      have : ¬ (e.isIntersecting = true ∧ e.target = x) := fun hh => hi hh.1
      simp [this]

lemma observed_visibilityCallback (x : Nat) :
    ∀ (entries : List IEntry) (s : ObsState),
      x ∈ (visibilityCallback entries s).observed ↔
        (x ∈ s.observed ∧ hitCount x entries = 0) := by
  intro entries
  induction entries with
  | nil =>
    intro s
    simp [visibilityCallback, hitCount]
  | cons e rest ih =>
    intro s
    rw [visibilityCallback_cons]
    by_cases hi : e.isIntersecting = true
    · rw [if_pos hi, ih]
      by_cases ht : e.target = x
      · subst ht
        simp [hitCount, hi, List.mem_filter]
      · have hxt : ¬ x = e.target := fun hh => ht hh.symm
        simp [hitCount, hi, ht, List.mem_filter, hxt]
    · rw [if_neg hi, ih]
      have hno : ¬ (e.isIntersecting = true ∧ e.target = x) := fun hh => hi hh.1
      simp [hitCount, hno]

lemma hitCount_zero_of_unobserved (x : Nat) (s : ObsState) (entries : List IEntry)
    (hall : ∀ e ∈ entries, e.target ∈ s.observed) (hx : x ∉ s.observed) :
    hitCount x entries = 0 := by
  induction entries with
  | nil => rfl
  | cons e rest ih =>
    have he : e.target ∈ s.observed := hall e (by simp)
    have hrest : hitCount x rest = 0 :=
      ih (fun e' he' => hall e' (by simp [he']))
    have hne : ¬ (e.isIntersecting = true ∧ e.target = x) := by
      rintro ⟨-, hh⟩
      exact hx (hh ▸ he)
    simp [hitCount, hne, hrest]

/-- The one-shot invariant in intersection mode: the callback has run at most
once, and while the element is still observed it has not run at all. -/
def OneShotInv (x : Nat) (s : ObsState) : Prop :=
  s.fired x ≤ 1 ∧ (x ∈ s.observed → s.fired x = 0)

lemma oneShotInv_deliver (x : Nat) (s : ObsState) (entries : List IEntry)
    (hv : ValidDeliver s entries) (h : OneShotInv x s) :
    OneShotInv x (visibilityCallback entries s) := by
  by_cases hx : x ∈ s.observed
  · have hf0 : s.fired x = 0 := h.2 hx
    constructor
    · rw [fired_visibilityCallback, hf0, Nat.zero_add]
      exact hv.2 x
    · intro hmem
      rw [observed_visibilityCallback] at hmem
      rw [fired_visibilityCallback, hf0, Nat.zero_add, hmem.2]
  · have hc0 : hitCount x entries = 0 := hitCount_zero_of_unobserved x s entries hv.1 hx
    constructor
    · rw [fired_visibilityCallback, hc0, Nat.add_zero]
      exact h.1
    · intro hmem
      rw [observed_visibilityCallback] at hmem
      exact absurd hmem.1 hx

lemma oneShotInv_observe_ne (x t : Nat) (s : ObsState) (hne : t ≠ x)
    (h : OneShotInv x s) : OneShotInv x (obsStep s (ObsEvent.observe t)) := by
  refine ⟨h.1, ?_⟩
  intro hmem
  apply h.2
  simp only [obsStep] at hmem
  by_cases hmem' : t ∈ s.observed
  · rw [if_pos hmem'] at hmem
    exact hmem
  · rw [if_neg hmem'] at hmem
    rcases List.mem_cons.mp hmem with hh | hh
    · exact absurd hh.symm hne
    · exact hh

lemma runObs_oneShotInv (x : Nat) :
    ∀ (trace : List ObsEvent) (s : ObsState), OneShotInv x s →
      ValidTrace s trace → ObsEvent.observe x ∉ trace →
      OneShotInv x (runObs s trace) := by
  intro trace
  induction trace with
  | nil =>
    intro s h _ _
    exact h
  | cons e rest ih =>
    intro s h hv hno
    have hnorest : ObsEvent.observe x ∉ rest := fun hh => hno (by simp [hh])
    have hstep : OneShotInv x (obsStep s e) := by
      cases e with
      | observe t =>
        have ht : t ≠ x := by
          intro hh
          subst hh
          exact hno (by simp)
        exact oneShotInv_observe_ne x t s ht h
      | deliver entries =>
        exact oneShotInv_deliver x s entries hv.1 h
    exact ih (obsStep s e) hstep hv.2 hnorest

lemma runFallback_count (x : Nat) :
    ∀ (ts : List Nat) (s : ObsState),
      (runFallback s ts).fired x = s.fired x + ts.count x := by
  intro ts
  induction ts with
  | nil =>
    intro s
    simp [runFallback]
  | cons t rest ih =>
    intro s
    simp only [runFallback, List.foldl_cons]
    rw [show List.foldl fallbackObserve (fallbackObserve s t) rest
        = runFallback (fallbackObserve s t) rest from rfl, ih]
    by_cases ht : x = t
    · subst ht
      simp [fallbackObserve, List.count_cons]
      omega
    · simp [fallbackObserve, ht, List.count_cons, fun hh : t = x => ht hh.symm]

/-- C7, counterexample.  In the eager fallback installed when
`IntersectionObserver` is unsupported, every `observe` call invokes the
element's `"became visible"` callback immediately; observing the same element
twice (which happens whenever `lazyLoad` runs again over a surviving element
after a content swap) invokes the callback twice, refuting "invoked at most
once over the element's lifetime, even if the element is observed multiple
times". -/
theorem c7_one_shot_counterexample :
    ¬ ((runFallback obsInit [5, 5]).fired 5 ≤ 1) := by
  decide

/-- C7 (amended): the resolution callback is one-shot per observation, not per
lifetime.  With intersection support, starting from a state satisfying the
one-shot invariant (in particular any state where the element's callback has
never run), any browser-valid event sequence that does not re-observe the
element leaves the callback invoked at most once — the callback unobserves the
element on its first invocation, and valid deliveries only target observed
elements.  In the eager fallback, each `observe` call invokes the callback
exactly once, so observing an element n times invokes it n times. -/
theorem c7_one_shot_per_observation (x : Nat) (s : ObsState) (trace : List ObsEvent)
    (hfired : s.fired x = 0) (hv : ValidTrace s trace)
    (hno : ObsEvent.observe x ∉ trace) :
    (runObs s trace).fired x ≤ 1 ∧
    (∀ (s2 : ObsState) (ts : List Nat),
      (runFallback s2 ts).fired x = s2.fired x + ts.count x) := by
  constructor
  · exact (runObs_oneShotInv x trace s ⟨by omega, fun _ => hfired⟩ hv hno).1
  · intro s2 ts
    exact runFallback_count x ts s2

theorem c7_one_shot_per_observation_witness :
    (runObs { obsInit with observed := [5] }
      [ObsEvent.deliver [⟨5, true⟩], ObsEvent.deliver []]).fired 5 ≤ 1 ∧
    (runFallback obsInit [5, 5, 5]).fired 5 = obsInit.fired 5 + 3 := by
  have h := c7_one_shot_per_observation 5 { obsInit with observed := [5] }
    [ObsEvent.deliver [⟨5, true⟩], ObsEvent.deliver []]
    rfl
    (by
      refine ⟨⟨?_, ?_⟩, ⟨?_, ?_⟩, trivial⟩
      · intro e he
        simp at he
        subst he
        simp [obsInit]
      · intro y
        simp only [hitCount]
        split <;> simp
      · intro e he
        simp at he
      · intro y
        simp [hitCount])
    (by decide)
  refine ⟨h.1, ?_⟩
  have h2 := h.2 obsInit [5, 5, 5]
  simpa using h2

/-!
## `assignActions` (AnimeNotifier.ts lines 482-532)

One element's pass through the loop body.  `trigger` / `action` are the
element's `data-trigger` / `data-action` declarations (`""` when absent),
`assigned` is the `element["action assigned"]` record `{trigger, action,
handler}` (handlers are identified by `Nat` ids, handed out freshly by the
caller), and `listeners` are the element's registered (event, handler) pairs.
`registry` is the set of action names exported by the `Actions` module.
-/

/-- An element as `assignActions` sees it. -/
structure ActionElem where
  trigger : String
  action : String
  assigned : Option (String × String × Nat)
  listeners : List (String × Nat)
deriving DecidableEq, Repr

/-- One iteration of the `assignActions` loop for one element:

```
let actionTrigger = element.dataset.trigger
let actionName = element.dataset.action
if(!actionTrigger || !actionName) { continue }
let oldAction = element["action assigned"]
if(oldAction) {
  if(oldAction.trigger === actionTrigger && oldAction.action === actionName) { continue }
  element.removeEventListener(oldAction.trigger, oldAction.handler)
}
if(!(actionName in actions)) { this.statusMessage.showError(...); continue }
let actionHandler = ...
element.addEventListener(actionTrigger, actionHandler)
element["action assigned"] = {trigger, action, handler}
```

Returns the updated element and the next fresh handler id.  Note that on the
unknown-action path the old listener has already been removed but
`element["action assigned"]` still holds the old record. -/
def assignOne (registry : List String) (fresh : Nat) (e : ActionElem) : ActionElem × Nat :=
  if e.trigger = "" ∨ e.action = "" then (e, fresh)
  else
    match e.assigned with
    | some (t, a, h) =>
      if t = e.trigger ∧ a = e.action then (e, fresh)
      else
        let e1 := { e with listeners := e.listeners.filter (fun p => p ≠ (t, h)) }
        if e.action ∈ registry then
          ({ e1 with
              listeners := e1.listeners ++ [(e.trigger, fresh)]
              assigned := some (e.trigger, e.action, fresh) }, fresh + 1)
        else (e1, fresh)
    | none =>
      if e.action ∈ registry then
        ({ e with
            listeners := e.listeners ++ [(e.trigger, fresh)]
            assigned := some (e.trigger, e.action, fresh) }, fresh + 1)
      else (e, fresh)

/-- The per-element well-formedness `assignActions` maintains: the registered
listeners are at most the one recorded in `element["action assigned"]`. -/
def ActionWf (e : ActionElem) : Prop :=
  (e.assigned = none → e.listeners = []) ∧
  (∀ t a h, e.assigned = some (t, a, h) →
    e.listeners = [] ∨ e.listeners = [(t, h)])

lemma actionWf_listeners_len (e : ActionElem) (hwf : ActionWf e) :
    e.listeners.length ≤ 1 := by
  rcases hass : e.assigned with _ | ⟨t, a, h⟩
  · rw [hwf.1 hass]
    simp
  · rcases hwf.2 t a h hass with hh | hh <;> simp [hh]

lemma filter_wf_eq_nil (e : ActionElem) (t a : String) (h : Nat)
    (hass : e.assigned = some (t, a, h)) (hwf : ActionWf e) :
    e.listeners.filter (fun p => p ≠ (t, h)) = [] := by
  rcases hwf.2 t a h hass with hh | hh <;> simp [hh]

/-- C8, counterexample.  An element declaring the pair
`(click, frobnicate)` where `frobnicate` is not a registered action name:
the binding pass shows an error and skips it, so running the pass twice with
the pair unchanged leaves zero active listeners on the element — not exactly
one as the claim states. -/
theorem c8_exactly_one_listener_counterexample :
    ¬ ((assignOne ["search"] 1
          ((assignOne ["search"] 0
            ⟨"click", "frobnicate", none, []⟩).1)).1.listeners.length = 1) := by
  decide

/-- C8 (amended): for an element with no pre-existing binding whose declared
(trigger, action) pair names a registered action, running the binding pass
twice with the pair unchanged leaves exactly one active listener, the second
pass being a no-op (idempotence); for every well-formed element the pass
preserves well-formedness and leaves at most one active listener (when the
declared pair differs from the recorded binding, the old listener is removed
before any new registration; when the action name is unregistered, no listener
is registered at all); and on a well-formed element whose recorded binding
differs from the declared registered pair, the pass leaves exactly the newly
registered listener. -/
theorem c8_binding_idempotent_per_element (registry : List String) (f g : Nat)
    (e : ActionElem) :
    (e.assigned = none → e.listeners = [] → e.trigger ≠ "" → e.action ≠ "" →
      e.action ∈ registry →
      (assignOne registry f e).1.listeners = [(e.trigger, f)] ∧
      assignOne registry g (assignOne registry f e).1 = ((assignOne registry f e).1, g)) ∧
    (ActionWf e → ActionWf (assignOne registry f e).1 ∧
      (assignOne registry f e).1.listeners.length ≤ 1) ∧
    (∀ t a h, e.assigned = some (t, a, h) → ¬ (t = e.trigger ∧ a = e.action) →
      ActionWf e → e.trigger ≠ "" → e.action ≠ "" → e.action ∈ registry →
      (assignOne registry f e).1.listeners = [(e.trigger, f)]) := by
  have wf_new : ∀ (tr ac : String) (hd : Nat) (L : List (String × Nat)),
      L = [(tr, hd)] →
      ActionWf { trigger := tr, action := ac,
                 assigned := some (tr, ac, hd), listeners := L } := by
    intro tr ac hd L hL
    constructor
    · intro hh
      simp at hh
    · intro t' a' h' hh
      simp only [Option.some.injEq, Prod.mk.injEq] at hh
      right
      rw [hL, hh.1, hh.2.2]
  refine ⟨?_, ?_, ?_⟩
  · intro hass hlis htr hac hreg
    have hguard : ¬ (e.trigger = "" ∨ e.action = "") := by
      rintro (hh | hh)
      · exact htr hh
      · exact hac hh
    have h1 : (assignOne registry f e).1
        = { e with listeners := e.listeners ++ [(e.trigger, f)]
                   assigned := some (e.trigger, e.action, f) } := by
      simp [assignOne, hguard, hass, hreg]
    constructor
    · rw [h1, hlis]
      rfl
    · rw [h1]
      simp [assignOne, hguard]
  · intro hwf
    by_cases hguard : e.trigger = "" ∨ e.action = ""
    · have h1 : (assignOne registry f e).1 = e := by
        simp [assignOne, hguard]
      rw [h1]
      exact ⟨hwf, actionWf_listeners_len e hwf⟩
    · rcases hass : e.assigned with _ | ⟨t, a, h⟩
      · have hnil : e.listeners = [] := hwf.1 hass
        by_cases hreg : e.action ∈ registry
        · have h1 : (assignOne registry f e).1
            = { e with listeners := e.listeners ++ [(e.trigger, f)]
                       assigned := some (e.trigger, e.action, f) } := by
            simp [assignOne, hguard, hass, hreg]
          rw [h1, hnil]
          refine ⟨wf_new _ _ _ _ rfl, by simp⟩
        · have h1 : (assignOne registry f e).1 = e := by
            simp [assignOne, hguard, hass, hreg]
          rw [h1]
          exact ⟨hwf, actionWf_listeners_len e hwf⟩
      · by_cases hsame : t = e.trigger ∧ a = e.action
        · have h1 : (assignOne registry f e).1 = e := by
            simp [assignOne, hguard, hass, hsame]
          rw [h1]
          exact ⟨hwf, actionWf_listeners_len e hwf⟩
        · have hfil : e.listeners.filter (fun p => p ≠ (t, h)) = [] :=
            filter_wf_eq_nil e t a h hass hwf
          by_cases hreg : e.action ∈ registry
          · have h1 : (assignOne registry f e).1
              = { e with listeners := e.listeners.filter (fun p => p ≠ (t, h))
                            ++ [(e.trigger, f)]
                         assigned := some (e.trigger, e.action, f) } := by
              simp [assignOne, hguard, hass, hsame, hreg]
            rw [h1, hfil]
            refine ⟨wf_new _ _ _ _ rfl, by simp⟩
          · have h1 : (assignOne registry f e).1
              = { e with listeners := e.listeners.filter (fun p => p ≠ (t, h)) } := by
              simp [assignOne, hguard, hass, hsame, hreg]
            rw [h1, hfil]
            constructor
            · constructor
              · intro _
                rfl
              · intro t' a' h' _
                left
                rfl
            · simp
  · intro t a h hass hsame hwf htr hac hreg
    have hguard : ¬ (e.trigger = "" ∨ e.action = "") := by
      rintro (hh | hh)
      · exact htr hh
      · exact hac hh
    have hfil : e.listeners.filter (fun p => p ≠ (t, h)) = [] :=
      filter_wf_eq_nil e t a h hass hwf
    have h1 : (assignOne registry f e).1
        = { e with listeners := e.listeners.filter (fun p => p ≠ (t, h))
                      ++ [(e.trigger, f)]
                   assigned := some (e.trigger, e.action, f) } := by
      simp [assignOne, hguard, hass, hsame, hreg]
    rw [h1, hfil]
    rfl

theorem c8_binding_idempotent_per_element_witness :
    (assignOne ["search"] 0 ⟨"click", "search", none, []⟩).1.listeners
      = [("click", 0)] ∧
    assignOne ["search"] 1 ((assignOne ["search"] 0
        ⟨"click", "search", none, []⟩).1)
      = ((assignOne ["search"] 0 ⟨"click", "search", none, []⟩).1, 1) := by
  have h := (c8_binding_idempotent_per_element ["search"] 0 1
    ⟨"click", "search", none, []⟩).1 rfl rfl (by decide) (by decide) (by decide)
  exact h
